import Mathlib

/-!
Shallow embedding of the thread-safe banking core of this repository
(`src/unit_6/individual_coding.py`): the `BankAccount` class with
`deposit`, `withdraw`, `transfer_to`, its constructor validation, and the
lock-ordering discipline used by `transfer_to`.

Modelling choices:
* Python object identity is modelled by an index type `ι`; a `Ledger ι`
  carries the immutable `account_number` of each object and its mutable
  `__balance_cents` field.  Distinct indices are distinct objects, so the
  `other is self` test of `transfer_to` is equality of indices, and two
  distinct objects may carry the same account number.
* Python ints are unbounded, so balances and amounts are `Int`.
* A raised exception is the `Except.error` branch; since every operation
  validates before mutating, an exception leaves the ledger unchanged,
  which `settle` makes explicit for callers that catch the exception.
* `ValueError`/`InsufficientFundsError` with their exact message strings
  form `BankError`; the spec's error taxonomy (InvalidArgument /
  InsufficientFunds / InvalidOperation) is the classification `classify`,
  mapping each raise site as §7 of the spec does.
* The lock-acquisition order computed at lines 86–87 of the source is
  `lockOrder`; the blocking states of an in-flight transfer and its
  waits-for relation are `TState`/`waitsFor`.
-/

namespace Bank

/-- The two exception classes raised by the banking code, with the exact
message passed at each raise site. -/
inductive BankError where
  | valueError (msg : String)
  | insufficientFundsError (msg : String)
deriving DecidableEq, Repr

/-- The spec's error taxonomy (§7). -/
inductive SpecErrorKind where
  | invalidArgument
  | insufficientFunds
  | invalidOperation
deriving DecidableEq, Repr

def noneTargetMsg : String := "Target account cannot be None."
def selfTransferMsg : String := "Cannot transfer to the same account."
def depositAmountMsg : String := "Deposit amount must be positive."
def withdrawAmountMsg : String := "Withdrawal amount must be positive."
def transferAmountMsg : String := "Transfer amount must be positive."
def insufficientMsg : String := "Insufficient funds."
def insufficientTransferMsg : String := "Insufficient funds for transfer."
def emptyAccountMsg : String := "Account number must not be empty."
def negativeInitialMsg : String := "Initial balance cannot be negative."

/-- The spec's classification of each raise site (§7): a `ValueError` for a
null or self target is `InvalidOperation`, every other `ValueError` is
`InvalidArgument`, and `InsufficientFundsError` is `InsufficientFunds`. -/
def classify : BankError → SpecErrorKind
  | .valueError m =>
      if m = noneTargetMsg ∨ m = selfTransferMsg then .invalidOperation
      else .invalidArgument
  | .insufficientFundsError _ => .insufficientFunds

/-- The mutable state of a run: each account object `i : ι` has its
immutable `__account_number` and its mutable `__balance_cents`. -/
structure Ledger (ι : Type) where
  acctNum : ι → String
  balance : ι → Int

/-- Python `str.strip()` on the character list of a string: drop leading
and trailing whitespace. -/
def pyStrip (l : List Char) : List Char :=
  ((l.dropWhile Char.isWhitespace).reverse.dropWhile Char.isWhitespace).reverse

/-- `BankAccount.__init__` (lines 34–42): rejects an empty or blank account
number and a negative initial balance, otherwise yields the two fields the
constructor stores. -/
def mkBankAccount (account_number : String) (initial_balance_cents : Int) :
    Except BankError (String × Int) :=
  if account_number.data.isEmpty || (pyStrip account_number.data).isEmpty then
    .error (.valueError emptyAccountMsg)
  else if initial_balance_cents < 0 then
    .error (.valueError negativeInitialMsg)
  else
    .ok (account_number, initial_balance_cents)

variable {ι : Type} [DecidableEq ι]

/-- `BankAccount.get_balance` (lines 51–54). -/
def get_balance (L : Ledger ι) (a : ι) : Int :=
  L.balance a

/-- `BankAccount.__deposit_unlocked` (lines 102–103). -/
def depositUnlocked (L : Ledger ι) (a : ι) (amount_cents : Int) : Ledger ι :=
  { L with balance := Function.update L.balance a (L.balance a + amount_cents) }

/-- `BankAccount.__withdraw_unlocked` (lines 105–106). -/
def withdrawUnlocked (L : Ledger ι) (a : ι) (amount_cents : Int) : Ledger ι :=
  { L with balance := Function.update L.balance a (L.balance a - amount_cents) }

/-- `BankAccount.deposit` (lines 58–63). -/
def deposit (L : Ledger ι) (a : ι) (amount_cents : Int) :
    Except BankError (Ledger ι) :=
  if amount_cents ≤ 0 then .error (.valueError depositAmountMsg)
  else .ok (depositUnlocked L a amount_cents)

/-- `BankAccount.withdraw` (lines 65–72). -/
def withdraw (L : Ledger ι) (a : ι) (amount_cents : Int) :
    Except BankError (Ledger ι) :=
  if amount_cents ≤ 0 then .error (.valueError withdrawAmountMsg)
  else if amount_cents > L.balance a then
    .error (.insufficientFundsError insufficientMsg)
  else .ok (withdrawUnlocked L a amount_cents)

/-- `BankAccount.transfer_to` (lines 74–95), functional effect.  The
argument `other` is `Option ι` because the Python parameter may be `None`;
the `other is self` test is index equality. -/
def transfer_to (L : Ledger ι) (self : ι) (other : Option ι)
    (amount_cents : Int) : Except BankError (Ledger ι) :=
  match other with
  | none => .error (.valueError noneTargetMsg)
  | some other =>
    if other = self then .error (.valueError selfTransferMsg)
    else if amount_cents ≤ 0 then .error (.valueError transferAmountMsg)
    else if amount_cents > L.balance self then
      .error (.insufficientFundsError insufficientTransferMsg)
    else .ok (depositUnlocked (withdrawUnlocked L self amount_cents) other amount_cents)

/-- The state a caller observes after an operation whose exception it
catches: every operation validates before mutating, so a raised exception
leaves the ledger as it was. -/
def settle (L : Ledger ι) : Except BankError (Ledger ι) → Ledger ι
  | .ok L' => L'
  | .error _ => L

/-- Lines 86–87 of `transfer_to`: the pair of accounts in the order their
locks are acquired, `(self, other)` when `self.account_number <
other.account_number` and `(other, self)` otherwise. -/
def lockOrder (L : Ledger ι) (self other : ι) : ι × ι :=
  if L.acctNum self < L.acctNum other then (self, other) else (other, self)

/-- One call a worker may issue against the ledger; a raised exception is
caught by the worker (`UserTask.run`), so the call leaves the state as
`settle` describes. -/
inductive AccountOp (ι : Type) where
  | getBalance (a : ι)
  | depositOp (a : ι) (amount_cents : Int)
  | withdrawOp (a : ι) (amount_cents : Int)
  | transferOp (src : ι) (tgt : Option ι) (amount_cents : Int)

/-- The state after one (possibly failing) call. -/
def applyOp (L : Ledger ι) : AccountOp ι → Ledger ι
  | .getBalance _ => L
  | .depositOp a amt => settle L (deposit L a amt)
  | .withdrawOp a amt => settle L (withdraw L a amt)
  | .transferOp s t amt => settle L (transfer_to L s t amt)

/-- One attempted `transfer_to` call: source object, target argument and
amount. -/
structure TransferCall (ι : Type) where
  src : ι
  tgt : Option ι
  amount_cents : Int

/-- The state after one (possibly failing) `transfer_to` call. -/
def applyTransferCall (L : Ledger ι) (c : TransferCall ι) : Ledger ι :=
  settle L (transfer_to L c.src c.tgt c.amount_cents)

/-- The aggregate total the simulator reports. -/
def totalBalance [Fintype ι] (L : Ledger ι) : Int :=
  ∑ i, L.balance i

/-- A deposit or withdraw call on a single account (the operations of the
single-account ledger equation). -/
inductive DWOp where
  | dep (amount_cents : Int)
  | wd (amount_cents : Int)

/-- The state after one (possibly failing) deposit/withdraw call on
account `a`. -/
def applyDW (a : ι) (L : Ledger ι) : DWOp → Ledger ι
  | .dep amt => settle L (deposit L a amt)
  | .wd amt => settle L (withdraw L a amt)

/-- Running sums of the amounts of the successful deposits and of the
successful withdrawals of a call sequence on account `a`, starting from
ledger `L`: a deposit succeeds when its amount is positive, a withdraw
when its amount is positive and at most the balance at the time of the
call. -/
def dwTotals (L : Ledger ι) (a : ι) : List DWOp → Int × Int
  | [] => (0, 0)
  | op :: rest =>
    let t := dwTotals (applyDW a L op) a rest
    match op with
    | .dep amt => if 0 < amt then (amt + t.1, t.2) else t
    | .wd amt => if 0 < amt ∧ amt ≤ L.balance a then (t.1, amt + t.2) else t

/-- An in-flight transfer between two account objects: `src.transfer_to(dst)`. -/
structure TransferOp (ι : Type) where
  src : ι
  dst : ι

/-- The two points at which a transfer can be blocked: waiting for the
first lock of its `lockOrder` pair (holding nothing), or waiting for the
second while holding the first. -/
inductive TPhase where
  | acquiringFirst
  | acquiringSecond
deriving DecidableEq, Repr

/-- A blocked transfer: which transfer it is and which acquisition it is
blocked on. -/
structure TState (ι : Type) where
  op : TransferOp ι
  phase : TPhase

/-- The lock a blocked transfer is waiting to acquire. -/
def waitedLock (L : Ledger ι) (t : TState ι) : ι :=
  match t.phase with
  | .acquiringFirst => (lockOrder L t.op.src t.op.dst).1
  | .acquiringSecond => (lockOrder L t.op.src t.op.dst).2

/-- The locks a blocked transfer holds: none before the first acquisition,
the first lock of its pair while blocked on the second. -/
def heldLocks (L : Ledger ι) (t : TState ι) : List ι :=
  match t.phase with
  | .acquiringFirst => []
  | .acquiringSecond => [(lockOrder L t.op.src t.op.dst).1]

/-- Wait-for edge: `t` waits for `u` when the lock `t` is blocked on is
held by `u`. -/
def waitsFor (L : Ledger ι) (t u : TState ι) : Prop :=
  waitedLock L t ∈ heldLocks L u

/-- The spec's precondition that the two accounts of a transfer carry
distinct account numbers (globally unique ids, §9). -/
def numsDiffer (L : Ledger ι) (t : TState ι) : Prop :=
  L.acctNum t.op.src ≠ L.acctNum t.op.dst

/-- The account number of the first lock of a transfer's acquisition
order. -/
def firstLockNum (L : Ledger ι) (t : TState ι) : String :=
  L.acctNum (lockOrder L t.op.src t.op.dst).1

end Bank

namespace Bank

set_option linter.unusedSectionVars false

variable {ι : Type} [DecidableEq ι]

/-- The two accounts of the reference scenario (`TransactionSimulator`):
`ACC-001` and `ACC-002`, each starting at 100000 cents. -/
def demoLedger : Ledger (Fin 2) where
  acctNum := fun i => if i = 0 then "ACC-001" else "ACC-002"
  balance := fun _ => 100000

theorem lockOrder_fst_lt (L : Ledger ι) {x y : ι}
    (h : L.acctNum x ≠ L.acctNum y) :
    L.acctNum (lockOrder L x y).1 < L.acctNum (lockOrder L x y).2 := by
  unfold lockOrder
  by_cases hxy : L.acctNum x < L.acctNum y
  · rw [if_pos hxy]
    exact hxy
  · rw [if_neg hxy]
    exact lt_of_le_of_ne (not_lt.mp hxy) (Ne.symm h)

theorem lockOrder_comm (L : Ledger ι) {x y : ι}
    (h : L.acctNum x ≠ L.acctNum y) :
    lockOrder L x y = lockOrder L y x := by
  unfold lockOrder
  by_cases hxy : L.acctNum x < L.acctNum y
  · rw [if_pos hxy, if_neg (lt_asymm hxy)]
  · rw [if_neg hxy, if_pos (lt_of_le_of_ne (not_lt.mp hxy) (Ne.symm h))]

theorem waitsFor_target (L : Ledger ι) {t u : TState ι} (h : waitsFor L t u) :
    u.phase = TPhase.acquiringSecond ∧
      waitedLock L t = (lockOrder L u.op.src u.op.dst).1 := by
  unfold waitsFor heldLocks at h
  cases hu : u.phase
  · rw [hu] at h
    simp at h
  · rw [hu] at h
    simp at h
    exact ⟨rfl, h⟩

theorem waitsFor_mono (L : Ledger ι) {t u : TState ι}
    (hnum : numsDiffer L t) (hph : t.phase = TPhase.acquiringSecond)
    (h : waitsFor L t u) :
    firstLockNum L t < firstLockNum L u := by
  obtain ⟨_, heq⟩ := waitsFor_target L h
  have hw : waitedLock L t = (lockOrder L t.op.src t.op.dst).2 := by
    unfold waitedLock
    rw [hph]
  unfold firstLockNum
  rw [← heq, hw]
  exact lockOrder_fst_lt L hnum

theorem chain_waitsFor_le (L : Ledger ι) (rest : List (TState ι)) :
    ∀ t : TState ι,
      List.Chain (waitsFor L) t rest →
      (∀ u ∈ t :: rest, numsDiffer L u) →
      t.phase = TPhase.acquiringSecond →
      firstLockNum L t ≤
          firstLockNum L ((t :: rest).getLast (List.cons_ne_nil t rest)) ∧
        ((t :: rest).getLast (List.cons_ne_nil t rest)).phase =
          TPhase.acquiringSecond := by
  induction rest with
  | nil =>
    intro t _ _ hph
    exact ⟨le_refl _, hph⟩
  | cons u rest ih =>
    intro t hchain hall hph
    rcases List.chain_cons.mp hchain with ⟨htu, hchain'⟩
    have hu2 : u.phase = TPhase.acquiringSecond := (waitsFor_target L htu).1
    have hlt : firstLockNum L t < firstLockNum L u :=
      waitsFor_mono L (hall t (by simp)) hph htu
    have hall' : ∀ v ∈ u :: rest, numsDiffer L v := by
      intro v hv
      exact hall v (List.mem_cons_of_mem t hv)
    obtain ⟨hle, hlast⟩ := ih u hchain' hall' hu2
    rw [List.getLast_cons (List.cons_ne_nil u rest)]
    exact ⟨le_of_lt (lt_of_lt_of_le hlt hle), hlast⟩

/-- C2: for every `transfer_to` between two accounts with distinct
account numbers, the lock of the account with the lexicographically
smaller `account_number` is acquired first and the other second,
regardless of which account is the source (`lockOrder` is symmetric in
the pair); consequently, among blocked transfers whose account pairs
carry distinct account numbers, the wait-for relation admits no cycle:
no chain of transfers `t → t₁ → ... → last` can close with an edge
`last → t`. -/
theorem transfer_lock_ordering_deadlock_free
    (L : Ledger ι) (x y : ι) (hxy : L.acctNum x ≠ L.acctNum y) :
    (L.acctNum (lockOrder L x y).1 < L.acctNum (lockOrder L x y).2 ∧
      lockOrder L x y = lockOrder L y x) ∧
    (∀ (t : TState ι) (rest : List (TState ι)),
      (∀ u ∈ t :: rest, numsDiffer L u) →
      List.Chain (waitsFor L) t rest →
      ¬ waitsFor L ((t :: rest).getLast (List.cons_ne_nil t rest)) t) := by
  refine ⟨⟨lockOrder_fst_lt L hxy, lockOrder_comm L hxy⟩, ?_⟩
  intro t rest hall hchain hclose
  have ht2 : t.phase = TPhase.acquiringSecond := (waitsFor_target L hclose).1
  obtain ⟨hle, hlast2⟩ := chain_waitsFor_le L rest t hchain hall ht2
  have hlastmem : (t :: rest).getLast (List.cons_ne_nil t rest) ∈ t :: rest :=
    List.getLast_mem (List.cons_ne_nil t rest)
  have hlt : firstLockNum L ((t :: rest).getLast (List.cons_ne_nil t rest)) <
      firstLockNum L t :=
    waitsFor_mono L (hall _ hlastmem) hlast2 hclose
  exact absurd hle (not_le.mpr hlt)

/-- Witness for C2 at the reference scenario: the two accounts
`ACC-001`, `ACC-002` have distinct numbers, the lock of `ACC-001` is
acquired first whichever account is the source. -/
theorem transfer_lock_ordering_deadlock_free_witness :
    demoLedger.acctNum (lockOrder demoLedger 0 1).1 <
        demoLedger.acctNum (lockOrder demoLedger 0 1).2 ∧
      lockOrder demoLedger 0 1 = lockOrder demoLedger 1 0 :=
  (transfer_lock_ordering_deadlock_free demoLedger 0 1 (by decide)).1

theorem sum_update_transfer [Fintype ι] (f : ι → Int) {x y : ι} (hyx : y ≠ x)
    (a : Int) :
    ∑ i, Function.update (Function.update f x (f x - a)) y (f y + a) i =
      ∑ i, f i := by
  have hx1 : x ∈ Finset.univ.erase y :=
    Finset.mem_erase.mpr ⟨Ne.symm hyx, Finset.mem_univ x⟩
  rw [Finset.sum_update_of_mem (Finset.mem_univ y), Finset.sdiff_singleton_eq_erase]
  rw [Finset.sum_update_of_mem hx1, Finset.sdiff_singleton_eq_erase]
  rw [← Finset.add_sum_erase _ f (Finset.mem_univ y), ← Finset.add_sum_erase _ f hx1]
  ring

theorem totalBalance_applyTransferCall [Fintype ι] (L : Ledger ι)
    (c : TransferCall ι) :
    totalBalance (applyTransferCall L c) = totalBalance L := by
  obtain ⟨src, tgt, amt⟩ := c
  cases tgt with
  | none => rfl
  | some other =>
    by_cases h1 : other = src
    · simp [applyTransferCall, transfer_to, h1, settle]
    · by_cases h2 : amt ≤ 0
      · simp [applyTransferCall, transfer_to, h1, h2, settle]
      · by_cases h3 : amt > L.balance src
        · simp [applyTransferCall, transfer_to, h1, h2, h3, settle]
        · simp [applyTransferCall, transfer_to, h1, h2, h3, settle, totalBalance,
            depositUnlocked, withdrawUnlocked]
          exact sum_update_transfer L.balance h1 amt

/-- C1: any finite sequence of `transfer_to` attempts (successful or
failing, between any accounts, including null and self targets) leaves
the sum of all account balances unchanged. -/
theorem transfer_conservation [Fintype ι] (L : Ledger ι)
    (cs : List (TransferCall ι)) :
    totalBalance (cs.foldl applyTransferCall L) = totalBalance L := by
  induction cs generalizing L with
  | nil => rfl
  | cons c cs ih => rw [List.foldl_cons, ih, totalBalance_applyTransferCall]

theorem update_nonneg {f : ι → Int} (h : ∀ i, 0 ≤ f i) {a : ι} {v : Int}
    (hv : 0 ≤ v) : ∀ i, 0 ≤ Function.update f a v i := by
  intro i
  by_cases hia : i = a
  · subst hia
    simpa using hv
  · rw [Function.update_noteq hia]
    exact h i

theorem applyOp_nonneg (L : Ledger ι) (op : AccountOp ι)
    (h : ∀ i, 0 ≤ L.balance i) : ∀ i, 0 ≤ (applyOp L op).balance i := by
  cases op with
  | getBalance a => exact h
  | depositOp a amt =>
    unfold applyOp deposit
    by_cases h1 : amt ≤ 0
    · simpa [h1, settle] using h
    · simp only [if_neg h1, settle, depositUnlocked]
      exact update_nonneg h (by have := h a; omega)
  | withdrawOp a amt =>
    unfold applyOp withdraw
    by_cases h1 : amt ≤ 0
    · simpa [h1, settle] using h
    · by_cases h2 : amt > L.balance a
      · simpa [h1, h2, settle] using h
      · simp only [if_neg h1, if_neg h2, settle, withdrawUnlocked]
        exact update_nonneg h (by omega)
  | transferOp s t amt =>
    cases t with
    | none => simpa [applyOp, transfer_to, settle] using h
    | some o =>
      by_cases h1 : o = s
      · simpa [applyOp, transfer_to, h1, settle] using h
      · by_cases h2 : amt ≤ 0
        · simpa [applyOp, transfer_to, h1, h2, settle] using h
        · by_cases h3 : amt > L.balance s
          · simpa [applyOp, transfer_to, h1, h2, h3, settle] using h
          · simp only [applyOp, transfer_to, if_neg h1, if_neg h2, if_neg h3,
              settle, depositUnlocked, withdrawUnlocked]
            have hinner : ∀ i, 0 ≤ Function.update L.balance s (L.balance s - amt) i :=
              update_nonneg h (by omega)
            exact update_nonneg hinner (by have := hinner o; omega)

/-- C3: starting from any ledger whose balances are all non-negative (as
construction guarantees), after any sequence of completed operations
(`get_balance`, `deposit`, `withdraw`, `transfer_to`, succeeding or
failing) every balance is still non-negative; instantiating the sequence
at each prefix gives the invariant after every call. -/
theorem balances_nonneg (L : Ledger ι) (h : ∀ i, 0 ≤ L.balance i)
    (ops : List (AccountOp ι)) (i : ι) :
    0 ≤ (ops.foldl applyOp L).balance i := by
  induction ops generalizing L with
  | nil => exact h i
  | cons op rest ih => exact ih (applyOp L op) (applyOp_nonneg L op h)

/-- Witness for C3: the reference scenario's ledger after a withdraw and a
transfer still has a non-negative balance on account 0. -/
theorem balances_nonneg_witness :
    0 ≤ (([AccountOp.withdrawOp 0 500, AccountOp.transferOp 0 (some 1) 300] :
        List (AccountOp (Fin 2))).foldl applyOp demoLedger).balance 0 :=
  balances_nonneg demoLedger (fun i => by simp [demoLedger]) _ 0

/-- C4: for two distinct account objects and a positive amount, a
`transfer_to` exceeding the source's balance fails with
`InsufficientFundsError` and leaves both balances (indeed the whole
ledger) unchanged; otherwise it decreases the source by the amount,
increases the target by the amount, and touches no other account. -/
theorem transfer_effect (L : Ledger ι) (x y : ι) (amt : Int)
    (hxy : y ≠ x) (hpos : 0 < amt) :
    (L.balance x < amt →
      transfer_to L x (some y) amt =
          .error (.insufficientFundsError insufficientTransferMsg) ∧
        settle L (transfer_to L x (some y) amt) = L) ∧
    (amt ≤ L.balance x →
      (settle L (transfer_to L x (some y) amt)).balance x = L.balance x - amt ∧
        (settle L (transfer_to L x (some y) amt)).balance y = L.balance y + amt ∧
        ∀ i, i ≠ x → i ≠ y →
          (settle L (transfer_to L x (some y) amt)).balance i = L.balance i) := by
  have h2 : ¬ amt ≤ 0 := not_le.mpr hpos
  constructor
  · intro hins
    have h3 : amt > L.balance x := hins
    exact ⟨by simp [transfer_to, hxy, h2, h3],
      by simp [transfer_to, hxy, h2, h3, settle]⟩
  · intro hsuff
    have h3 : ¬ amt > L.balance x := not_lt.mpr hsuff
    simp only [transfer_to, if_neg hxy, if_neg h2, if_neg h3, settle,
      depositUnlocked, withdrawUnlocked]
    refine ⟨?_, ?_, fun i hix hiy => ?_⟩
    · rw [Function.update_noteq (Ne.symm hxy), Function.update_same]
    · rw [Function.update_same, Function.update_noteq hxy]
    · rw [Function.update_noteq hiy, Function.update_noteq hix]

/-- Witness for C4: transferring 300 from `ACC-001` to `ACC-002` in the
reference scenario moves exactly 300 cents. -/
theorem transfer_effect_witness :
    (settle demoLedger (transfer_to demoLedger 0 (some 1) 300)).balance 0 =
        demoLedger.balance 0 - 300 ∧
      (settle demoLedger (transfer_to demoLedger 0 (some 1) 300)).balance 1 =
        demoLedger.balance 1 + 300 := by
  have h := (transfer_effect demoLedger 0 1 300 (by decide) (by decide)).2
    (by decide)
  exact ⟨h.1, h.2.1⟩

/-- C5: `withdraw` fails with a `ValueError` (spec: `InvalidArgument`)
when the amount is not positive; fails with `InsufficientFundsError`
leaving the balance unchanged when the positive amount exceeds the
balance; and otherwise succeeds leaving the balance decreased by the
amount. -/
theorem withdraw_cases (L : Ledger ι) (a : ι) (amt : Int) :
    (amt ≤ 0 →
      withdraw L a amt = .error (.valueError withdrawAmountMsg) ∧
        classify (.valueError withdrawAmountMsg) = .invalidArgument ∧
        settle L (withdraw L a amt) = L) ∧
    (0 < amt → L.balance a < amt →
      withdraw L a amt = .error (.insufficientFundsError insufficientMsg) ∧
        classify (.insufficientFundsError insufficientMsg) = .insufficientFunds ∧
        (settle L (withdraw L a amt)).balance a = L.balance a) ∧
    (0 < amt → amt ≤ L.balance a →
      (∃ L', withdraw L a amt = .ok L') ∧
        (settle L (withdraw L a amt)).balance a = L.balance a - amt) := by
  refine ⟨fun h1 => ?_, fun h1 h2 => ?_, fun h1 h2 => ?_⟩
  · exact ⟨by simp [withdraw, h1], by decide, by simp [withdraw, h1, settle]⟩
  · have h3 : ¬ amt ≤ 0 := not_le.mpr h1
    have h4 : amt > L.balance a := h2
    exact ⟨by simp [withdraw, h3, h4], by decide,
      by simp [withdraw, h3, h4, settle]⟩
  · have h3 : ¬ amt ≤ 0 := not_le.mpr h1
    have h4 : ¬ amt > L.balance a := not_lt.mpr h2
    refine ⟨⟨withdrawUnlocked L a amt, by simp [withdraw, h3, h4]⟩, ?_⟩
    simp [withdraw, h3, h4, settle, withdrawUnlocked]

/-- Witness for C5, the spec's scenario scaled to the reference ledger:
withdrawing 200000 from a balance of 100000 fails with
`InsufficientFundsError` and leaves the balance unchanged. -/
theorem withdraw_cases_witness :
    withdraw demoLedger 0 200000 =
        Except.error (BankError.insufficientFundsError insufficientMsg) ∧
      (settle demoLedger (withdraw demoLedger 0 200000)).balance 0 =
        demoLedger.balance 0 := by
  have h := (withdraw_cases demoLedger 0 200000).2.1 (by decide) (by decide)
  exact ⟨h.1, h.2.2⟩

/-- C7: a `transfer_to` whose target is the account itself fails with the
self-transfer `ValueError` (spec: `InvalidOperation`) and leaves the
ledger unchanged, for every amount and every balance, including zero. -/
theorem self_transfer_invalid (L : Ledger ι) (a : ι) (amt : Int) :
    transfer_to L a (some a) amt = .error (.valueError selfTransferMsg) ∧
      classify (.valueError selfTransferMsg) = .invalidOperation ∧
      settle L (transfer_to L a (some a) amt) = L :=
  ⟨by simp [transfer_to], by decide, by simp [transfer_to, settle]⟩

/-- C9: `deposit` with a non-positive amount fails with a `ValueError`
(spec: `InvalidArgument`) leaving the balance unchanged; with a positive
amount it always succeeds (no other failure mode) and increments the
balance by exactly the amount, touching no other account. -/
theorem deposit_cases (L : Ledger ι) (a : ι) (amt : Int) :
    (amt ≤ 0 →
      deposit L a amt = .error (.valueError depositAmountMsg) ∧
        classify (.valueError depositAmountMsg) = .invalidArgument ∧
        settle L (deposit L a amt) = L) ∧
    (0 < amt →
      deposit L a amt = .ok (depositUnlocked L a amt) ∧
        (settle L (deposit L a amt)).balance a = L.balance a + amt ∧
        ∀ i, i ≠ a → (settle L (deposit L a amt)).balance i = L.balance i) := by
  constructor
  · intro h1
    exact ⟨by simp [deposit, h1], by decide, by simp [deposit, h1, settle]⟩
  · intro h1
    have h2 : ¬ amt ≤ 0 := not_le.mpr h1
    refine ⟨by simp [deposit, h2], ?_, fun i hia => ?_⟩
    · simp [deposit, h2, settle, depositUnlocked]
    · simp [deposit, h2, settle, depositUnlocked, Function.update_noteq hia]

/-- Witness for C9: depositing 10000 in the reference scenario adds
exactly 10000 cents. -/
theorem deposit_cases_witness :
    (settle demoLedger (deposit demoLedger 0 10000)).balance 0 =
      demoLedger.balance 0 + 10000 :=
  ((deposit_cases demoLedger 0 10000).2 (by decide)).2.1

/-- C10: the null-target check of `transfer_to` precedes the
self-transfer check, which precedes the positive-amount check: a call
with a null target reports the null-target error for every amount,
including non-positive ones; a self-transfer with a non-positive amount
still reports the self-transfer error; and every failing call leaves the
ledger unchanged. -/
theorem transfer_validation_precedence (L : Ledger ι) (a : ι)
    (tgt : Option ι) (amt : Int) :
    transfer_to L a none amt = .error (.valueError noneTargetMsg) ∧
      (amt ≤ 0 →
        transfer_to L a (some a) amt = .error (.valueError selfTransferMsg)) ∧
      (∀ e, transfer_to L a tgt amt = .error e →
        settle L (transfer_to L a tgt amt) = L) := by
  refine ⟨rfl, fun _ => by simp [transfer_to], fun e he => ?_⟩
  rw [he]
  rfl

/-- Witness for C10: a self-transfer of a negative amount reports the
self-transfer error, not the amount error. -/
theorem transfer_validation_precedence_witness :
    transfer_to demoLedger 0 (some 0) (-5) =
      Except.error (BankError.valueError selfTransferMsg) :=
  (transfer_validation_precedence demoLedger 0 (some 0) (-5)).2.1 (by decide)

theorem pyStrip_eq_nil_iff (l : List Char) :
    pyStrip l = [] ↔ ∀ c ∈ l, Char.isWhitespace c := by
  unfold pyStrip
  rw [List.reverse_eq_nil_iff, List.dropWhile_eq_nil_iff]
  simp only [List.mem_reverse]
  constructor
  · intro h c hc
    rcases List.mem_append.mp
        ((List.takeWhile_append_dropWhile Char.isWhitespace l) ▸ hc) with h1 | h2
    · exact List.mem_takeWhile_imp h1
    · exact h c h2
  · intro h c hc
    exact h c ((List.dropWhile_sublist Char.isWhitespace).subset hc)

theorem blank_iff (l : List Char) :
    (l.isEmpty || (pyStrip l).isEmpty) = true ↔
      l.all Char.isWhitespace = true := by
  rw [Bool.or_eq_true, List.isEmpty_iff, List.isEmpty_iff, List.all_eq_true,
    pyStrip_eq_nil_iff]
  constructor
  · rintro (h | h)
    · subst h
      intro c hc
      cases hc
    · exact h
  · exact fun h => Or.inr h

/-- C8: the constructor fails exactly when the account number is empty or
consists only of whitespace, or the initial balance is negative; the
failure is a `ValueError` (spec: `InvalidArgument`), and otherwise
construction succeeds with the given fields. -/
theorem mkBankAccount_validation (s : String) (b : Int) :
    ((∃ e, mkBankAccount s b = .error e) ↔
        (s.data.all Char.isWhitespace = true ∨ b < 0)) ∧
      (∀ e, mkBankAccount s b = .error e → classify e = .invalidArgument) ∧
      (¬ (s.data.all Char.isWhitespace = true ∨ b < 0) →
        mkBankAccount s b = .ok (s, b)) := by
  unfold mkBankAccount
  by_cases h1 : (s.data.isEmpty || (pyStrip s.data).isEmpty) = true
  · have hall : s.data.all Char.isWhitespace = true := (blank_iff s.data).mp h1
    rw [if_pos h1]
    refine ⟨⟨fun _ => Or.inl hall, fun _ => ⟨_, rfl⟩⟩, ?_, fun hno => absurd (Or.inl hall) hno⟩
    intro e he
    cases he
    decide
  · rw [if_neg h1]
    have hnall : ¬ s.data.all Char.isWhitespace = true := fun h =>
      h1 ((blank_iff s.data).mpr h)
    by_cases h2 : b < 0
    · rw [if_pos h2]
      refine ⟨⟨fun _ => Or.inr h2, fun _ => ⟨_, rfl⟩⟩, ?_, fun hno => absurd (Or.inr h2) hno⟩
      intro e he
      cases he
      decide
    · rw [if_neg h2]
      refine ⟨⟨?_, ?_⟩, ?_, fun _ => rfl⟩
      · rintro ⟨e, he⟩
        cases he
      · rintro (h | h)
        · exact absurd h hnall
        · exact absurd h h2
      · intro e he
        cases he

/-- Witness for C8: the reference account `ACC-001` with initial balance
100000 is accepted. -/
theorem mkBankAccount_validation_witness :
    mkBankAccount "ACC-001" 100000 = .ok ("ACC-001", 100000) :=
  (mkBankAccount_validation "ACC-001" 100000).2.2 (by decide)

theorem dw_balance_eq (a : ι) (ops : List DWOp) :
    ∀ L : Ledger ι,
      (ops.foldl (applyDW a) L).balance a =
        L.balance a + (dwTotals L a ops).1 - (dwTotals L a ops).2 := by
  induction ops with
  | nil =>
    intro L
    simp [dwTotals]
  | cons op rest ih =>
    intro L
    rw [List.foldl_cons]
    cases op with
    | dep amt =>
      by_cases h1 : 0 < amt
      · have h2 : ¬ amt ≤ 0 := not_le.mpr h1
        have hbal : (applyDW a L (DWOp.dep amt)).balance a = L.balance a + amt := by
          simp [applyDW, deposit, h2, settle, depositUnlocked]
        have h4 := ih (applyDW a L (DWOp.dep amt))
        simp only [dwTotals, if_pos h1]
        omega
      · have h2 : amt ≤ 0 := not_lt.mp h1
        have hL : applyDW a L (DWOp.dep amt) = L := by
          simp [applyDW, deposit, h2, settle]
        have h4 := ih (applyDW a L (DWOp.dep amt))
        simp only [dwTotals, if_neg h1]
        rw [hL] at h4 ⊢
        exact h4
    | wd amt =>
      by_cases hs : 0 < amt ∧ amt ≤ L.balance a
      · have h2 : ¬ amt ≤ 0 := not_le.mpr hs.1
        have h3 : ¬ amt > L.balance a := not_lt.mpr hs.2
        have hbal : (applyDW a L (DWOp.wd amt)).balance a = L.balance a - amt := by
          simp [applyDW, withdraw, h2, h3, settle, withdrawUnlocked]
        have h4 := ih (applyDW a L (DWOp.wd amt))
        simp only [dwTotals, if_pos hs]
        omega
      · have hL : applyDW a L (DWOp.wd amt) = L := by
          unfold applyDW withdraw
          by_cases h2 : amt ≤ 0
          · simp [h2, settle]
          · have h3 : amt > L.balance a := by
              rcases not_and_or.mp hs with h | h
              · omega
              · omega
            simp [h2, h3, settle]
        have h4 := ih (applyDW a L (DWOp.wd amt))
        simp only [dwTotals, if_neg hs]
        rw [hL] at h4 ⊢
        exact h4

theorem applyDW_nonneg (a : ι) (L : Ledger ι) (op : DWOp)
    (h : 0 ≤ L.balance a) : 0 ≤ (applyDW a L op).balance a := by
  cases op with
  | dep amt =>
    by_cases h1 : amt ≤ 0
    · simpa [applyDW, deposit, h1, settle] using h
    · simp [applyDW, deposit, h1, settle, depositUnlocked]
      omega
  | wd amt =>
    by_cases h1 : amt ≤ 0
    · simpa [applyDW, withdraw, h1, settle] using h
    · by_cases h2 : amt > L.balance a
      · simpa [applyDW, withdraw, h1, h2, settle] using h
      · simp [applyDW, withdraw, h1, h2, settle, withdrawUnlocked]
        omega

theorem dw_run_nonneg (a : ι) (ops : List DWOp) :
    ∀ L : Ledger ι, 0 ≤ L.balance a →
      0 ≤ (ops.foldl (applyDW a) L).balance a := by
  induction ops with
  | nil => exact fun L h => h
  | cons op rest ih => exact fun L h => ih _ (applyDW_nonneg a L op h)

/-- C6: for a single account with a non-negative initial balance, after
any finite sequence of deposit/withdraw calls the balance equals the
initial balance plus the sum of the successful deposit amounts minus the
sum of the successful withdrawal amounts, and the balance is
non-negative after every call (every prefix of the sequence). -/
theorem ledger_equation (L : Ledger ι) (a : ι) (h0 : 0 ≤ L.balance a)
    (ops : List DWOp) :
    ((ops.foldl (applyDW a) L).balance a =
        L.balance a + (dwTotals L a ops).1 - (dwTotals L a ops).2) ∧
      (∀ l₁ l₂ : List DWOp, ops = l₁ ++ l₂ →
        0 ≤ (l₁.foldl (applyDW a) L).balance a) :=
  ⟨dw_balance_eq a ops L, fun l₁ _ _ => dw_run_nonneg a l₁ L h0⟩

/-- Witness for C6, the spec's scenario on the reference ledger: deposit
10000 then withdraw 4000; the final balance satisfies the ledger
equation. -/
theorem ledger_equation_witness :
    ([DWOp.dep 10000, DWOp.wd 4000].foldl (applyDW (0 : Fin 2)) demoLedger).balance 0 =
      demoLedger.balance 0 +
        (dwTotals demoLedger 0 [DWOp.dep 10000, DWOp.wd 4000]).1 -
        (dwTotals demoLedger 0 [DWOp.dep 10000, DWOp.wd 4000]).2 :=
  (ledger_equation demoLedger 0 (by decide) [DWOp.dep 10000, DWOp.wd 4000]).1

end Bank
